import Mathlib

/-!
Verification of the NumBits n-dimensional array library against its
specification.  The development shallowly embeds the relevant C++ functions
as executable Lean definitions (machine `size_t` arithmetic is modelled by
`ℕ`; the templated element type `T` is modelled by a type parameter, by `ℤ`
for integer instantiations and by `ℚ` for floating-point instantiations,
keeping the exact control flow of the source), and proves or refutes the
specified properties about those definitions.
-/

namespace NumBits

/-! ### Shape and stride helpers, from `include/numbits/utils.hpp`

`Shape` and `Strides` are `std::vector<size_t>`, modelled as `List ℕ`. -/

/-- `compute_size` (utils.hpp:41): product of the dimensions, 1 for the
empty shape.  `std::accumulate` over the whole vector starting from 1 is the
list product; the `empty` special case also returns 1. -/
def compute_size (shape : List ℕ) : ℕ := shape.prod

/-- `compute_strides` (utils.hpp:63): row-major strides.  The C++ fills the
vector backwards with `strides[last] = 1` and
`strides[i] = strides[i+1] * shape[i+1]`, so `strides[i]` is the product of
the dimensions after position `i`; the recursion builds exactly that. -/
def compute_strides : List ℕ → List ℕ
  | [] => []
  | _ :: ds => ds.prod :: compute_strides ds

/-- `flatten_index` (utils.hpp:87): `Σ indices[i] * strides[i]` over the
positions of `indices` (on valid input both vectors have the same length). -/
def flatten_index (indices strides : List ℕ) : ℕ :=
  (List.zipWith (· * ·) indices strides).sum

/-- `unravel_index` (utils.hpp:110): for each axis `i` in order,
`indices[i] = flat / strides[i]` and then `flat %= strides[i]`.  The loop
runs over `shape.size()` positions reading `strides[i]` (same length on
valid input). -/
def unravel_index (flat : ℕ) : List ℕ → List ℕ → List ℕ
  | _ :: ds, st :: sts => (flat / st) :: unravel_index (flat % st) ds sts
  | _, _ => []

/-- `broadcast_shapes` (utils.hpp:138), inner loop on right-aligned axes.
The C++ walks `i = 0, 1, ...` from the rightmost axis, reading dimension
`shape[size-1-i]` and substituting 1 past the shorter shape, throwing at the
first incompatible pair; this recursion consumes the reversed shapes and
produces the reversed result. -/
def bshapes_rev : List ℕ → List ℕ → Except String (List ℕ)
  | [], ys => .ok (ys.map fun b => max 1 b)
  | x :: xs, [] => .ok ((x :: xs).map fun a => max a 1)
  | a :: as, b :: bs =>
    if a ≠ b ∧ a ≠ 1 ∧ b ≠ 1 then .error "Cannot broadcast shapes"
    else do
      let r ← bshapes_rev as bs
      .ok (max a b :: r)

/-- `broadcast_shapes` (utils.hpp:138): right-align the two shapes, pad the
missing leading axes with 1, take `max` per axis, fail on an incompatible
pair. -/
def broadcast_shapes (shape1 shape2 : List ℕ) : Except String (List ℕ) :=
  match bshapes_rev shape1.reverse shape2.reverse with
  | .ok r => .ok r.reverse
  | .error e => .error e

/-! ### The top-level array container, from `include/numbits/ndarray.hpp`

`ndarray<T>` there stores a shape, row-major strides computed by
`compute_strides(shape)`, a flat buffer of `compute_size(shape)` elements
and `size_ = compute_size(shape)`.  Every public constructor and factory of
this class produces exactly that contiguous layout, so the model keeps the
shape and the flat buffer; the strides and the size are recomputed. -/

/-- The top-level `numbits::ndarray<T>` (ndarray.hpp:61): shape plus the
flat row-major data buffer. -/
structure NdArr (α : Type) where
  shape : List ℕ
  data : List α
deriving DecidableEq, Repr

/-- `ndarray(const Shape&)` (ndarray.hpp:87): no validation at all; the
buffer gets `compute_size(shape)` zero-initialized elements (`data_` is
null, i.e. the buffer is empty, when that size is 0). -/
def nd_create (zero : α) (shape : List ℕ) : NdArr α :=
  ⟨shape, List.replicate (compute_size shape) zero⟩

/-! ### Broadcasting, from `include/numbits/broadcasting.hpp`

`BroadcastIterator` keeps a multi-index `current_index_` over the target
shape, advanced like an odometer; `get_value` reads the source buffer at
the flat position `Σ (expanded_shape[i]==1 ? 0 : current_index_[i]) *
expanded_strides[i]`, where `expanded_shape` is the source shape left-padded
with 1 to the target rank and `expanded_strides = compute_strides` of it. -/

/-- `BroadcastIterator::increment` (broadcasting.hpp:94) acting on the
reversed index/shape lists: increment the rightmost counter, carrying
leftwards while a counter reaches its dimension. -/
def incr_rev : List ℕ → List ℕ → List ℕ
  | d :: ds, c :: cs => if c + 1 < d then (c + 1) :: cs else 0 :: incr_rev ds cs
  | _, cs => cs

/-- `BroadcastIterator::increment` on the (un-reversed) target shape. -/
def incr_idx (tshape cur : List ℕ) : List ℕ :=
  (incr_rev tshape.reverse cur.reverse).reverse

/-- The flat source offset computed by `BroadcastIterator::get_value`
(broadcasting.hpp:75): along each axis the index contributes
`(expanded_shape[i] == 1 ? 0 : current_index_[i]) * expanded_strides[i]`. -/
def gv_offset : List ℕ → List ℕ → List ℕ → ℕ
  | e :: es, s :: ss, c :: cs => (if e = 1 then 0 else c) * s + gv_offset es ss cs
  | _, _, _ => 0

/-- `BroadcastIterator::get_value` (broadcasting.hpp:75). -/
def get_value [Inhabited α] (src : List α) (expanded estr cur : List ℕ) : α :=
  src.getD (gv_offset expanded estr cur) default

/-- The fill loop of `broadcast_to` (broadcasting.hpp:154): `n` remaining
iterations producing `get_value` of the current odometer state, then
incrementing. -/
def bcast_fill [Inhabited α] (src : List α) (expanded estr bshape : List ℕ) :
    ℕ → List ℕ → List α
  | 0, _ => []
  | n + 1, cur =>
    get_value src expanded estr cur :: bcast_fill src expanded estr bshape n (incr_idx bshape cur)

/-- `broadcast_to` (broadcasting.hpp:149): compute the broadcast shape of
source and target (propagating its failure), allocate the result and fill
it elementwise through a `BroadcastIterator` whose expanded shape is the
source shape left-padded with 1 to the broadcast rank. -/
def broadcast_to [Inhabited α] (arr : NdArr α) (target_shape : List ℕ) :
    Except String (NdArr α) := do
  let bshape ← broadcast_shapes arr.shape target_shape
  let expanded := List.replicate (bshape.length - arr.shape.length) 1 ++ arr.shape
  let estr := compute_strides expanded
  .ok ⟨bshape,
    bcast_fill arr.data expanded estr bshape (compute_size bshape)
      (List.replicate bshape.length 0)⟩

/-! ### Elementwise operations and reductions, `include/numbits/operations.hpp` -/

/-- `divide` (operations.hpp:116): broadcast both operands to the common
shape and apply `std::divides<T>` elementwise via `std::transform`; the
division operation of the element type is the parameter `dv` (for
`T = double` it is IEEE division, producing `inf`/`NaN` on a zero divisor).
No per-element domain check is performed. -/
def divide [Inhabited α] (dv : α → α → α) (a b : NdArr α) :
    Except String (NdArr α) := do
  let result_shape ← broadcast_shapes a.shape b.shape
  let a_broadcast ← broadcast_to a result_shape
  let b_broadcast ← broadcast_to b result_shape
  .ok ⟨result_shape, List.zipWith dv a_broadcast.data b_broadcast.data⟩

/-- `sum` (operations.hpp:421): `std::accumulate` over the flat buffer. -/
def ops_sum (arr : NdArr ℚ) : ℚ := arr.data.sum

/-- `mean` (operations.hpp:429): returns `T{0}` for a zero-sized array,
otherwise `sum(arr) / arr.size()` where `size()` is the element count of
the shape. -/
def ops_mean (arr : NdArr ℚ) : ℚ :=
  if compute_size arr.shape = 0 then 0
  else ops_sum arr / (compute_size arr.shape : ℚ)

/-- `mean` on a raw vector (core/utils.hpp:74): returns `0.0` for an empty
vector, otherwise the accumulated sum divided by the element count. -/
def utils_mean (data : List ℚ) : ℚ :=
  if data.isEmpty then 0 else data.sum / (data.length : ℚ)

/-! ### Matrix multiplication, `include/numbits/linear_algebra.hpp` -/

/-- `matmul` (linear_algebra.hpp:26): requires two rank-2 arrays with
matching inner dimensions, then fills `result.at({i,j})` (flat position
`i*p + j`) with the running sum `Σ_k a.at({i,k}) * b.at({k,j})`; for the
contiguous arrays this class produces, `at({i,j})` reads flat position
`i * cols + j`. -/
def matmul [CommRing α] (a b : NdArr α) : Except String (NdArr α) :=
  if a.shape.length ≠ 2 ∨ b.shape.length ≠ 2 then
    .error "matmul requires 2D ndarrays"
  else if a.shape.getD 1 0 ≠ b.shape.getD 0 0 then
    .error "Matrix dimensions incompatible for multiplication"
  else
    let m := a.shape.getD 0 0
    let n := a.shape.getD 1 0
    let p := b.shape.getD 1 0
    .ok ⟨[m, p],
      (List.range (m * p)).map fun q =>
        ((List.range n).map fun k =>
          a.data.getD ((q / p) * n + k) 0 * b.data.getD (k * p + (q % p)) 0).sum⟩

/-! ### The core array container, from `include/numbits/core/ndarray.hpp`

This second `ndarray<T>` (the `core/` header stack) stores the shape, a
shared strides vector and a shared flat buffer.  Views (`ravel`, slicing,
`transpose`, the strides-sharing constructor) may carry strides other than
the row-major default, so the model keeps the strides explicitly. -/

/-- The core `numbits::ndarray<T>` (core/ndarray.hpp:36): shape, strides
and the shared flat data buffer. -/
structure CoreArr (α : Type) where
  shape : List ℕ
  strides : List ℕ
  data : List α
deriving DecidableEq, Repr

/-- `init_from_shape` (core/ndarray.hpp:667), used by the fill-value
constructors `ndarray(shape, init)`: rejects a shape containing a zero
dimension, otherwise allocates `Π dims` copies of `init` (1 for the empty
shape, giving a 0-D scalar) with row-major strides.  The `size_t` overflow
guard cannot fire over `ℕ` and is omitted. -/
def init_from_shape (shape : List ℕ) (init : α) : Except String (CoreArr α) :=
  if shape.any (· = 0) then .error "ndarray: shape dimensions must be > 0"
  else .ok ⟨shape, compute_strides shape, List.replicate (compute_size shape) init⟩

/-- `operator==` (core/ndarray.hpp:472): `false` when the shapes differ,
otherwise `std::equal(lhs.begin(), lhs.end(), rhs.begin())`, which compares
the first `lhs.data.length` elements of the two raw buffers; the strides
are not consulted. -/
def core_eq [DecidableEq α] (lhs rhs : CoreArr α) : Bool :=
  if lhs.shape ≠ rhs.shape then false
  else lhs.data = rhs.data.take lhs.data.length

/-- Multi-index read access `operator()(i...)` (core/ndarray.hpp:262) for
an in-bounds index: the element at flat offset `Σ idx[i] * strides[i]` of
the shared buffer. -/
def core_at [Inhabited α] (arr : CoreArr α) (idx : List ℕ) : α :=
  arr.data.getD (flatten_index idx arr.strides) default

/-! ### `broadcast_to` from `include/numbits/core/reshape.hpp` -/

/-- The per-`outer` source offset of `broadcast_to` (reshape.hpp:236-248):
decompose `outer` by successive `temp % target_shape[k]`, `temp /=
target_shape[k]` for `k = 0 .. rank-2`, and accumulate
`(src_dim == 1 ? 0 : coord) * strides[k - align_offset]` for the axes
covered by the source. -/
def rbt_src_idx (orig_shape strides_A : List ℕ) (align_offset : ℕ) :
    List ℕ → ℕ → ℕ → ℕ
  | [], _, _ => 0
  | d :: ds, k, temp =>
    let coord := temp % d
    (if k ≥ align_offset then
      (if orig_shape.getD (k - align_offset) 0 = 1 then 0 else coord) *
        strides_A.getD (k - align_offset) 0
     else 0) + rbt_src_idx orig_shape strides_A align_offset ds (k + 1) (temp / d)

/-- The inner fill loop of `broadcast_to` (reshape.hpp:249):
`dst[outer * inner_dim + inner] = src[src_idx]` for `inner = 0 ..
inner_dim - 1`.  `dst` and `src` alias the same shared buffer, so every
read sees the writes already performed. -/
def rbt_inner [Inhabited α] : List α → ℕ → ℕ → ℕ → ℕ → List α
  | buf, _, _, _, 0 => buf
  | buf, base, src_idx, inner, rem + 1 =>
    rbt_inner (buf.set (base + inner) (buf.getD src_idx default)) base src_idx (inner + 1) rem

/-- The outer fill loop of `broadcast_to` (reshape.hpp:236): for each
`outer`, compute `src_idx` from the leading target coordinates and run the
inner loop over the last axis. -/
def rbt_outer [Inhabited α] (orig_shape strides_A : List ℕ) (align_offset : ℕ)
    (lead_shape : List ℕ) (inner_dim : ℕ) : List α → ℕ → ℕ → List α
  | buf, _, 0 => buf
  | buf, outer, rem + 1 =>
    let src_idx := rbt_src_idx orig_shape strides_A align_offset lead_shape 0 outer
    rbt_outer orig_shape strides_A align_offset lead_shape inner_dim
      (rbt_inner buf (outer * inner_dim) src_idx 0 inner_dim) (outer + 1) rem

/-- `broadcast_to` (core/reshape.hpp:180): validates the target shape and
the per-axis compatibility, then builds the result as a strides-sharing
view over the *source* buffer — the view constructor
(core/ndarray.hpp:106) rejects it unless the source buffer already has
`Π target_shape` elements — and finally runs the aliased copy loop over
that shared buffer.  The `size_t` overflow guards cannot fire over `ℕ`. -/
def reshape_broadcast_to [Inhabited α] (A : CoreArr α) (target_shape : List ℕ) :
    Except String (CoreArr α) :=
  if target_shape.isEmpty then .error "broadcast_to: target shape cannot be empty"
  else if target_shape.any (· = 0) then .error "broadcast_to: shape dimensions must be > 0"
  else if A.shape.length > target_shape.length then
    .error "broadcast_to: target shape must have >= number of dimensions"
  else
    let align_offset := target_shape.length - A.shape.length
    if ¬ (List.range A.shape.length).all
        (fun i => A.shape.getD i 0 = 1 ∨
          A.shape.getD i 0 = target_shape.getD (i + align_offset) 0) then
      .error "broadcast_to: incompatible shapes"
    else if A.data.length ≠ compute_size target_shape then
      .error "ndarray: data size does not match shape"
    else
      let inner_dim := target_shape.getLastD 1
      let outer_size := compute_size target_shape / inner_dim
      let final := rbt_outer A.shape A.strides align_offset
        (target_shape.take (target_shape.length - 1)) inner_dim A.data 0 outer_size
      .ok ⟨target_shape, compute_strides target_shape, final⟩

/-! ### Reductions from `include/numbits/ops/reduction.hpp` -/

/-- `sum` (ops/reduction.hpp:14): accumulate the shared buffer. -/
def reduction_sum (A : CoreArr ℚ) : ℚ := A.data.sum

/-- `mean` (ops/reduction.hpp:31): throws `std::domain_error` when
`A.size() == 0` (the buffer is empty), otherwise `sum / size`. -/
def reduction_mean (A : CoreArr ℚ) : Except String ℚ :=
  if A.data.length = 0 then .error "mean: cannot compute mean of empty ndarray"
  else .ok (reduction_sum A / (A.data.length : ℚ))

/-! ### Dense linear algebra, from `include/numbits/linalg/matrix.hpp`

The kernels work on rank-2 core arrays of a floating-point type `T`; the
model represents an `n × n` matrix by its dimension together with an entry
function `ℕ → ℕ → ℚ` (exact rationals standing for the reals computed in
`T`), after the rank-2/squareness precondition checks which the
representation makes implicit.  `std::numeric_limits<double>::epsilon() *
10`, the singularity threshold, is the exact rational `10 / 2^52`. -/

/-- Square-matrix entries. -/
def Matq : Type := ℕ → ℕ → ℚ

/-- `std::numeric_limits<double>::epsilon() * 10` (matrix.hpp:204, 266). -/
def eps10 : ℚ := 10 / 2 ^ 52

/-- The identity matrix, as written by `det`'s callers and tests. -/
def idQ : Matq := fun i j => if i = j then 1 else 0

/-- The partial-pivoting search (matrix.hpp:185-194, identically
matrix.hpp:248-257): start from `pivot = k`, `max_val = |M(k,k)|` and take
any strictly larger `|M(i,k)|` for `i = k+1 .. n-1`. -/
def pivot_search (n k : ℕ) (M : Matq) : ℕ :=
  ((List.range' (k + 1) (n - (k + 1))).foldl
    (fun pm i => if |M i k| > pm.2 then (i, |M i k|) else pm) (k, |M k k|)).1

/-- The row swap (matrix.hpp:197-201): exchange rows `k` and `p` (when
`p = k` this is the identity, matching the guarded C++ swap). -/
def swap_rows (k p : ℕ) (M : Matq) : Matq :=
  fun i j => if i = k then M p j else if i = p then M k j else M i j

/-- One elimination step of `det` (matrix.hpp:208-212): for rows
`i = k+1 .. n-1` subtract `factor * M(k,j)` from `M(i,j)` for columns
`j = k+1 .. n-1`, with `factor = M(i,k) / M(k,k)`; row `k` and column `k`
are untouched, so the simultaneous update equals the sequential one. -/
def elim_step (n k : ℕ) (M : Matq) : Matq :=
  fun i j =>
    if k < i ∧ i < n ∧ k < j ∧ j < n then M i j - M i k / M k k * M k j
    else M i j

/-- The LU loop of `det` (matrix.hpp:184-215) with the remaining iteration
count as fuel (`fuel = n - k` throughout): pivot search, swap (counting
swaps), early `return 0` when the pivot magnitude is below `tol`, else
eliminate and multiply the pivot into the accumulator; at loop exit the
sign of the swap count is applied. -/
def det_loop (tol : ℚ) (n : ℕ) : ℕ → ℕ → Matq → ℚ → ℕ → ℚ
  | 0, _, _, dv, sw => if sw % 2 = 0 then dv else -dv
  | fuel + 1, k, M, dv, sw =>
    let p := pivot_search n k M
    let M1 := swap_rows k p M
    let sw1 := if p ≠ k then sw + 1 else sw
    if |M1 k k| < tol then 0
    else det_loop tol n fuel (k + 1) (elim_step n k M1) (dv * M1 k k) sw1

/-- `det` (matrix.hpp:161): direct cofactor formulas for `n = 1` and
`n = 2` (no pivot-magnitude check on those paths); LU decomposition with
partial pivoting otherwise.  `tol` is `numeric_limits<T>::epsilon() * 10`
(`eps10` for `T = double`). -/
def det (tol : ℚ) (n : ℕ) (A : Matq) : ℚ :=
  if n = 1 then A 0 0
  else if n = 2 then A 0 0 * A 1 1 - A 0 1 * A 1 0
  else det_loop tol n n 0 A 1 0

/-- The sequence of pivots which the LU loop of `det` encounters, written
from the specification words: at each step the partial-pivoting row is
swapped in, the (post-swap) diagonal entry is the step's pivot, and the run
stops — flagged as singular — as soon as a pivot magnitude drops below the
tolerance.  Returns (pivots, swap count, hit-a-small-pivot). -/
def lu_pivots (tol : ℚ) (n : ℕ) : ℕ → ℕ → Matq → List ℚ × ℕ × Bool
  | 0, _, _ => ([], 0, false)
  | fuel + 1, k, M =>
    let p := pivot_search n k M
    let M1 := swap_rows k p M
    let ds := if p ≠ k then 1 else 0
    if |M1 k k| < tol then ([M1 k k], ds, true)
    else
      let r := lu_pivots tol n fuel (k + 1) (elim_step n k M1)
      (M1 k k :: r.1, ds + r.2.1, r.2.2)

/-- The whole pivot record of `det`'s LU run on an `n × n` matrix. -/
def lu_run (tol : ℚ) (n : ℕ) (A : Matq) : List ℚ × ℕ × Bool :=
  lu_pivots tol n n 0 A

/-! ### Matrix inverse, `inv` (matrix.hpp:229) -/

/-- The augmented matrix `[A | I]` (matrix.hpp:239-244): `n` columns of
`A`, then the identity (the buffer is zero-initialised and `aug(i, n+i)`
set to 1). -/
def aug_init (n : ℕ) (A : Matq) : Matq :=
  fun i j => if j < n then A i j else if j = n + i then 1 else 0

/-- Scaling of the pivot row (matrix.hpp:270-272): divide row `k` by the
pivot value captured before the loop. -/
def scale_row (k : ℕ) (M : Matq) : Matq :=
  fun i j => if i = k then M k j / M k k else M i j

/-- The Gauss-Jordan elimination step of `inv` (matrix.hpp:275-281): for
every row `i ≠ k` (`i < n`) subtract `factor * M(k,j)` across all columns,
with `factor = M(i,k)` read before the row update; row `k` is untouched, so
the simultaneous update equals the sequential one. -/
def gj_elim (n k : ℕ) (M : Matq) : Matq :=
  fun i j => if i ≠ k ∧ i < n then M i j - M i k * M k j else M i j

/-- The Gauss-Jordan loop of `inv` (matrix.hpp:247-282) with the remaining
iteration count as fuel: pivot search, swap, `throw` when the pivot
magnitude is below `tol`, else scale the pivot row and eliminate the
column everywhere. -/
def inv_loop (tol : ℚ) (n : ℕ) : ℕ → ℕ → Matq → Except String Matq
  | 0, _, aug => .ok aug
  | fuel + 1, k, aug =>
    let p := pivot_search n k aug
    let aug1 := swap_rows k p aug
    if |aug1 k k| < tol then .error "inv: matrix is singular"
    else inv_loop tol n fuel (k + 1) (gj_elim n k (scale_row k aug1))

/-- `inv` (matrix.hpp:229): Gauss-Jordan elimination with partial pivoting
on `[A | I]`; on success the right half is the inverse.  `tol` is
`numeric_limits<T>::epsilon() * 10`. -/
def inv (tol : ℚ) (n : ℕ) (A : Matq) : Except String Matq :=
  (inv_loop tol n n 0 (aug_init n A)).map fun aug => fun i j => aug i (n + j)

/-- The sequence of pivots which `inv`'s Gauss-Jordan run encounters,
written from the specification words: the post-swap diagonal entry of each
step, stopping — flagged as singular — at the first pivot magnitude below
the tolerance. -/
def gj_pivots_loop (tol : ℚ) (n : ℕ) : ℕ → ℕ → Matq → List ℚ × Bool
  | 0, _, _ => ([], false)
  | fuel + 1, k, aug =>
    let p := pivot_search n k aug
    let aug1 := swap_rows k p aug
    if |aug1 k k| < tol then ([aug1 k k], true)
    else
      let r := gj_pivots_loop tol n fuel (k + 1) (gj_elim n k (scale_row k aug1))
      (aug1 k k :: r.1, r.2)

/-- The whole pivot record of `inv`'s Gauss-Jordan run on `[A | I]`. -/
def gj_pivots (tol : ℚ) (n : ℕ) (A : Matq) : List ℚ :=
  (gj_pivots_loop tol n n 0 (aug_init n A)).1

/-! ### Recursive determinant, `determinant` (linear_algebra.hpp:189) -/

/-- The minor built at linear_algebra.hpp:197-203: drop row 0 and column
`j`. -/
def minor_at (A : Matq) (j : ℕ) : Matq :=
  fun r c => A (r + 1) (if c < j then c else c + 1)

/-- `determinant` (linear_algebra.hpp:189): direct formulas for `n = 1`
and `n = 2`, otherwise Laplace expansion along the first row with signs
`(-1)^j`.  There is no pivoting and no magnitude check on any path. -/
def determinant : ℕ → Matq → ℚ
  | 0, _ => 0
  | 1, A => A 0 0
  | 2, A => A 0 0 * A 1 1 - A 0 1 * A 1 0
  | n + 3, A =>
    ((List.range (n + 3)).map fun j =>
      (if j % 2 = 0 then (1 : ℚ) else -1) * A 0 j * determinant (n + 2) (minor_at A j)).sum

/-! ### Specification-side definitions

These follow the wording of the specification (right-alignment by
left-padding with 1, per-pair compatibility) and are compared with the
source translations above. -/

/-- Multi-index read access `at({i,j,...})` (ndarray.hpp:287) of the
top-level container, whose strides are always `compute_strides(shape)`. -/
def nd_at [Inhabited α] (arr : NdArr α) (idx : List ℕ) : α :=
  arr.data.getD (flatten_index idx (compute_strides arr.shape)) default

/-- Spec wording: a dimension pair is broadcast-compatible when the
dimensions are equal or one of them is 1. -/
def dim_ok (a b : ℕ) : Prop := a = b ∨ a = 1 ∨ b = 1

/-- Spec wording: left-pad a shape with 1 up to rank `n`. -/
def pad_to (n : ℕ) (s : List ℕ) : List ℕ :=
  List.replicate (n - s.length) 1 ++ s

/-- Right-padding with 1, the mirror image of `pad_to` used to reason about
the right-aligned recursion `bshapes_rev`. -/
def pad_right (n : ℕ) (s : List ℕ) : List ℕ :=
  s ++ List.replicate (n - s.length) 1

/-! ## Theorems -/

/-! ### Index round-trip (claim C8) -/

/-- A flattened in-bounds index is below the element count. -/
theorem flatten_index_lt {idx shape : List ℕ}
    (h : List.Forall₂ (· < ·) idx shape) :
    flatten_index idx (compute_strides shape) < compute_size shape := by
  induction h with
  | nil => simp [flatten_index, compute_size, compute_strides]
  | @cons a b l1 l2 h1 h2 ih =>
    have hstep : a * l2.prod + flatten_index l1 (compute_strides l2) < b * l2.prod := by
      have h3 : flatten_index l1 (compute_strides l2) < l2.prod := by
        simpa [compute_size] using ih
      calc a * l2.prod + flatten_index l1 (compute_strides l2)
          < a * l2.prod + l2.prod := by omega
        _ = (a + 1) * l2.prod := by ring
        _ ≤ b * l2.prod := Nat.mul_le_mul_right _ (by omega)
    simpa [flatten_index, compute_size, compute_strides] using hstep

/-- C8.  For every valid shape and every in-bounds multi-index,
flattening the index against the row-major strides of `compute_strides`
and unraveling the resulting flat offset with the same shape and strides
returns the original multi-index. -/
theorem flatten_unravel_round_trip (shape idx : List ℕ)
    (h : List.Forall₂ (· < ·) idx shape) :
    unravel_index (flatten_index idx (compute_strides shape)) shape
      (compute_strides shape) = idx := by
  induction h with
  | nil => rfl
  | @cons a b l1 l2 h1 h2 ih =>
    have hlt : flatten_index l1 (compute_strides l2) < l2.prod := by
      simpa [compute_size] using flatten_index_lt h2
    have hpos : 0 < l2.prod := Nat.lt_of_le_of_lt (Nat.zero_le _) hlt
    have hflat : flatten_index (a :: l1) (compute_strides (b :: l2)) =
        a * l2.prod + flatten_index l1 (compute_strides l2) := by
      simp [flatten_index, compute_strides]
    have hdiv : (a * l2.prod + flatten_index l1 (compute_strides l2)) / l2.prod = a := by
      rw [mul_comm, Nat.mul_add_div hpos, Nat.div_eq_of_lt hlt]; omega
    have hmod : (a * l2.prod + flatten_index l1 (compute_strides l2)) % l2.prod =
        flatten_index l1 (compute_strides l2) := by
      rw [mul_comm, Nat.mul_add_mod, Nat.mod_eq_of_lt hlt]
    calc unravel_index (flatten_index (a :: l1) (compute_strides (b :: l2)))
          (b :: l2) (compute_strides (b :: l2))
        = (a * l2.prod + flatten_index l1 (compute_strides l2)) / l2.prod ::
            unravel_index
              ((a * l2.prod + flatten_index l1 (compute_strides l2)) % l2.prod)
              l2 (compute_strides l2) := by
          rw [hflat]; rfl
      _ = a :: l1 := by rw [hdiv, hmod, ih]

/-- Witness for C8 at the example of utils.hpp: shape `{3,4,5}`, index
`{2,1,3}`, flat offset 48. -/
theorem flatten_unravel_round_trip_witness :
    List.Forall₂ (· < ·) [2, 1, 3] [3, 4, 5] ∧
      unravel_index (flatten_index [2, 1, 3] (compute_strides [3, 4, 5]))
        [3, 4, 5] (compute_strides [3, 4, 5]) = [2, 1, 3] := by
  refine ⟨?_, flatten_unravel_round_trip [3, 4, 5] [2, 1, 3] ?_⟩ <;>
    simp [List.forall₂_cons]

/-! ### Broadcast shape computation (claim C7) -/

/-- On the right-aligned recursion, a missing left operand behaves as a
run of 1-dimensions: the result takes `max 1` of each right dimension. -/
theorem bshapes_rev_nil_left (y : List ℕ) :
    bshapes_rev [] y = .ok (y.map (fun b => max 1 b)) := rfl

/-- Mirror image of `bshapes_rev_nil_left`. -/
theorem bshapes_rev_nil_right (x : List ℕ) :
    bshapes_rev x [] = .ok (x.map (fun a => max a 1)) := by
  cases x with
  | nil => rfl
  | cons a as => rfl

/-- A run of 1-dimensions is broadcast-compatible with anything. -/
theorem forall₂_dim_ok_one_left (y : List ℕ) :
    List.Forall₂ dim_ok (List.replicate y.length 1) y := by
  induction y with
  | nil => exact List.Forall₂.nil
  | cons b bs ih => exact List.Forall₂.cons (Or.inr (Or.inl rfl)) ih

/-- Mirror image of `forall₂_dim_ok_one_left`. -/
theorem forall₂_dim_ok_one_right (x : List ℕ) :
    List.Forall₂ dim_ok x (List.replicate x.length 1) := by
  induction x with
  | nil => exact List.Forall₂.nil
  | cons a as ih => exact List.Forall₂.cons (Or.inr (Or.inr rfl)) ih

/-- `zipWith max` against a run of 1s of the same length is `max 1`. -/
theorem zipWith_max_replicate_left (y : List ℕ) :
    List.zipWith max (List.replicate y.length 1) y = y.map (fun b => max 1 b) := by
  induction y with
  | nil => rfl
  | cons b bs ih => simp [List.replicate_succ, ih]

/-- Mirror image of `zipWith_max_replicate_left`. -/
theorem zipWith_max_replicate_right (x : List ℕ) :
    List.zipWith max x (List.replicate x.length 1) = x.map (fun a => max a 1) := by
  induction x with
  | nil => rfl
  | cons a as ih => simp [List.replicate_succ, ih]

/-- The right-aligned recursion agrees with the padded per-pair `max`
description: it succeeds exactly when every right-aligned pair is
compatible, returning the pairwise `max` of the 1-padded operands. -/
theorem bshapes_rev_spec (x : List ℕ) : ∀ (y : List ℕ),
    (List.Forall₂ dim_ok (pad_right (max x.length y.length) x)
        (pad_right (max x.length y.length) y) →
      bshapes_rev x y = .ok (List.zipWith max
        (pad_right (max x.length y.length) x) (pad_right (max x.length y.length) y))) ∧
    (¬ List.Forall₂ dim_ok (pad_right (max x.length y.length) x)
        (pad_right (max x.length y.length) y) →
      bshapes_rev x y = .error "Cannot broadcast shapes") := by
  induction x with
  | nil =>
    intro y
    have hpadx : pad_right (max ([] : List ℕ).length y.length) [] =
        List.replicate y.length 1 := by
      simp [pad_right]
    have hpady : pad_right (max ([] : List ℕ).length y.length) y = y := by
      simp [pad_right]
    rw [hpadx, hpady]
    refine ⟨fun _ => ?_, fun hcon => absurd (forall₂_dim_ok_one_left y) hcon⟩
    rw [bshapes_rev_nil_left, zipWith_max_replicate_left]
  | cons a as ih =>
    intro y
    cases y with
    | nil =>
      have hpadx : pad_right (max (a :: as).length ([] : List ℕ).length) (a :: as) =
          a :: as := by
        simp [pad_right]
      have hpady : pad_right (max (a :: as).length ([] : List ℕ).length) [] =
          List.replicate (a :: as).length 1 := by
        simp [pad_right]
      rw [hpadx, hpady]
      refine ⟨fun _ => ?_, fun hcon => absurd (forall₂_dim_ok_one_right (a :: as)) hcon⟩
      rw [bshapes_rev_nil_right, zipWith_max_replicate_right]
    | cons b bs =>
      have hM : max (a :: as).length (b :: bs).length = max as.length bs.length + 1 := by
        simp; omega
      have hpadx : pad_right (max (a :: as).length (b :: bs).length) (a :: as) =
          a :: pad_right (max as.length bs.length) as := by
        rw [hM]
        simp only [pad_right, List.cons_append, List.length_cons]
        have hc : max as.length bs.length + 1 - (as.length + 1) =
            max as.length bs.length - as.length := by omega
        rw [hc]
      have hpady : pad_right (max (a :: as).length (b :: bs).length) (b :: bs) =
          b :: pad_right (max as.length bs.length) bs := by
        rw [hM]
        simp only [pad_right, List.cons_append, List.length_cons]
        have hc : max as.length bs.length + 1 - (bs.length + 1) =
            max as.length bs.length - bs.length := by omega
        rw [hc]
      rw [hpadx, hpady]
      by_cases hab : dim_ok a b
      · have hcond : ¬ (a ≠ b ∧ a ≠ 1 ∧ b ≠ 1) := by
          rcases hab with h | h | h <;> simp [h]
        constructor
        · intro hall
          have htail := (List.forall₂_cons.mp hall).2
          have hr := (ih bs).1 htail
          simp only [bshapes_rev, if_neg hcond, hr]
          rfl
        · intro hcon
          have htail : ¬ List.Forall₂ dim_ok (pad_right (max as.length bs.length) as)
              (pad_right (max as.length bs.length) bs) := by
            intro ht
            exact hcon (List.Forall₂.cons hab ht)
          have hr := (ih bs).2 htail
          simp only [bshapes_rev, if_neg hcond, hr]
          rfl
      · have hcond : a ≠ b ∧ a ≠ 1 ∧ b ≠ 1 := by
          by_contra hc
          push_neg at hc
          rcases Decidable.em (a = b) with h | h
          · exact hab (Or.inl h)
          · rcases Decidable.em (a = 1) with h1 | h1
            · exact hab (Or.inr (Or.inl h1))
            · exact hab (Or.inr (Or.inr (hc h h1)))
        constructor
        · intro hall
          exact absurd (List.forall₂_cons.mp hall).1 hab
        · intro _
          simp [bshapes_rev, hcond]

/-- Reversing turns `pad_to` into `pad_right`. -/
theorem pad_to_reverse (n : ℕ) (s : List ℕ) :
    (pad_to n s).reverse = pad_right n s.reverse := by
  simp [pad_to, pad_right, List.reverse_append, List.reverse_replicate]

/-- `pad_to` reaches the requested rank. -/
theorem pad_to_length {n : ℕ} {s : List ℕ} (h : s.length ≤ n) :
    (pad_to n s).length = n := by
  simp [pad_to]; omega

/-- C7.  `broadcast_shapes` right-aligns the two shapes, padding missing
leading dimensions with 1; when every aligned pair `(a, b)` satisfies
`a = b ∨ a = 1 ∨ b = 1` it returns the pairwise maximum, and otherwise it
fails with the incompatible-shapes error. -/
theorem broadcast_shapes_spec (s1 s2 : List ℕ) :
    (List.Forall₂ dim_ok (pad_to (max s1.length s2.length) s1)
        (pad_to (max s1.length s2.length) s2) →
      broadcast_shapes s1 s2 = .ok (List.zipWith max
        (pad_to (max s1.length s2.length) s1) (pad_to (max s1.length s2.length) s2))) ∧
    (¬ List.Forall₂ dim_ok (pad_to (max s1.length s2.length) s1)
        (pad_to (max s1.length s2.length) s2) →
      broadcast_shapes s1 s2 = .error "Cannot broadcast shapes") := by
  have hlen : max s1.reverse.length s2.reverse.length = max s1.length s2.length := by
    simp
  have hiff : List.Forall₂ dim_ok (pad_right (max s1.reverse.length s2.reverse.length) s1.reverse)
      (pad_right (max s1.reverse.length s2.reverse.length) s2.reverse) ↔
      List.Forall₂ dim_ok (pad_to (max s1.length s2.length) s1)
        (pad_to (max s1.length s2.length) s2) := by
    rw [hlen, ← pad_to_reverse, ← pad_to_reverse, List.forall₂_reverse_iff]
  have hspec := bshapes_rev_spec s1.reverse s2.reverse
  constructor
  · intro hall
    have h1 := hspec.1 (hiff.mpr hall)
    rw [hlen, ← pad_to_reverse, ← pad_to_reverse] at h1
    have hzip : List.zipWith max (pad_to (max s1.length s2.length) s1).reverse
        (pad_to (max s1.length s2.length) s2).reverse =
        (List.zipWith max (pad_to (max s1.length s2.length) s1)
          (pad_to (max s1.length s2.length) s2)).reverse := by
      rw [List.reverse_zipWith]
      rw [pad_to_length (Nat.le_max_left _ _), pad_to_length (Nat.le_max_right _ _)]
    rw [hzip] at h1
    simp [broadcast_shapes, h1]
  · intro hcon
    have h2 := hspec.2 (fun hf => hcon (hiff.mp hf))
    simp [broadcast_shapes, h2]

/-- Witness for C7: shapes `{3,1,5}` and `{4,5}` broadcast to `{3,4,5}`,
while `{3,2}` against `{4,2}` is rejected. -/
theorem broadcast_shapes_spec_witness :
    broadcast_shapes [3, 1, 5] [4, 5] = .ok [3, 4, 5] ∧
      broadcast_shapes [3, 2] [4, 2] = .error "Cannot broadcast shapes" := by
  constructor
  · have h := (broadcast_shapes_spec [3, 1, 5] [4, 5]).1 (by
      simp [pad_to, dim_ok, List.forall₂_cons])
    simpa [pad_to] using h
  · exact (broadcast_shapes_spec [3, 2] [4, 2]).2 (by
      simp [pad_to, dim_ok, List.forall₂_cons])

/-! ### Array creation validation (claim C9) -/

/-- C9 counterexample.  Creation with a fill value accepts the empty shape
(the claim demands an invalid-shape failure): `init_from_shape` returns a
0-D scalar holding one copy of the fill value, and the top-level
`ndarray(shape)` constructor builds a zero-sized array even for a shape
containing a zero dimension instead of failing. -/
theorem create_empty_shape_accepted :
    init_from_shape ([] : List ℕ) (7 : ℤ) = .ok ⟨[], [], [7]⟩ ∧
      nd_create (0 : ℤ) [0] = ⟨[0], []⟩ := by
  constructor <;> rfl

/-- C9 amended.  Core creation with a fill value fails with the
invalid-shape error exactly when some dimension is zero; otherwise it
constructs the array with a positive number of elements (one element for
the empty shape, a 0-D scalar).  The top-level `ndarray(shape)` constructor
never fails and allocates `compute_size shape` zero elements. -/
theorem create_validation (shape : List ℕ) (init : ℤ) :
    (shape.any (· = 0) = true →
      init_from_shape shape init = .error "ndarray: shape dimensions must be > 0") ∧
    (shape.any (· = 0) = false →
      init_from_shape shape init =
          .ok ⟨shape, compute_strides shape, List.replicate (compute_size shape) init⟩ ∧
        0 < compute_size shape) ∧
    (nd_create init shape).data.length = compute_size shape := by
  refine ⟨fun h => ?_, fun h => ⟨?_, ?_⟩, ?_⟩
  · simp [init_from_shape, h]
  · simp [init_from_shape, h]
  · have hall : ∀ d ∈ shape, 0 < d := by
      intro d hd
      have := List.any_eq_false.mp h d hd
      simpa using Nat.pos_of_ne_zero (by simpa using this)
    exact List.prod_pos hall
  · simp [nd_create]

/-- Witness for C9 amended, at the zero-dimension shape `{2,0}` and the
valid shape `{2,3}`. -/
theorem create_validation_witness :
    (init_from_shape [2, 0] (5 : ℤ) = .error "ndarray: shape dimensions must be > 0") ∧
      (init_from_shape [2, 3] (5 : ℤ) =
          .ok ⟨[2, 3], compute_strides [2, 3], List.replicate (compute_size [2, 3]) 5⟩ ∧
        0 < compute_size [2, 3]) :=
  ⟨(create_validation [2, 0] 5).1 (by decide),
    (create_validation [2, 3] 5).2.1 (by decide)⟩

/-! ### Array equality (claim C10) -/

/-- C10.  The core `operator==` returns `false` whenever the shapes
differ; for equal shapes it is exactly elementwise equality of the raw
flat buffers.  The strides are not consulted: the transpose view
`⟨{2,2}, strides {1,2}⟩` of the buffer `[1,2,3,4]` compares equal to the
row-major array over the same buffer although their strided logical views
disagree at index `(0,1)`. -/
theorem core_eq_spec :
    (∀ (α : Type) [DecidableEq α] (a b : CoreArr α),
      a.data.length = compute_size a.shape → b.data.length = compute_size b.shape →
      (core_eq a b = true ↔ a.shape = b.shape ∧ a.data = b.data)) ∧
    (core_eq (⟨[2, 2], [2, 1], [1, 2, 3, 4]⟩ : CoreArr ℤ) ⟨[2, 2], [1, 2], [1, 2, 3, 4]⟩ = true ∧
      core_at (⟨[2, 2], [1, 2], [1, 2, 3, 4]⟩ : CoreArr ℤ) [0, 1] ≠
        core_at (⟨[2, 2], [2, 1], [1, 2, 3, 4]⟩ : CoreArr ℤ) [0, 1]) := by
  constructor
  · intro α _ a b ha hb
    by_cases hs : a.shape = b.shape
    · have hlen : a.data.length = b.data.length := by rw [ha, hb, hs]
      have htake : b.data.take a.data.length = b.data := by
        rw [hlen, List.take_length]
      simp [core_eq, hs, htake]
    · simp [core_eq, hs]
  · constructor
    · decide
    · decide

/-- Witness for C10 at two concrete wellformed arrays. -/
theorem core_eq_spec_witness :
    core_eq (⟨[2], [1], [3, 4]⟩ : CoreArr ℤ) ⟨[2], [1], [3, 5]⟩ = true ↔
      ([2] : List ℕ) = [2] ∧ ([3, 4] : List ℤ) = [3, 5] :=
  core_eq_spec.1 ℤ ⟨[2], [1], [3, 4]⟩ ⟨[2], [1], [3, 5]⟩ (by decide) (by decide)

/-! ### Mean of empty input (claim C5) -/

/-- C5 counterexample.  `mean` in operations.hpp returns the default value
0 for a zero-sized array — no error is raised (the claim demands an
empty-input failure); the vector `mean` of core/utils.hpp likewise
returns 0 on empty input. -/
theorem ops_mean_empty_returns_zero :
    ops_mean ⟨[0], []⟩ = 0 ∧ utils_mean [] = 0 := by
  constructor <;> simp [ops_mean, utils_mean, compute_size]

/-- C5 amended.  Only the reduction-layer `mean` (ops/reduction.hpp) fails
on zero-sized input, with a domain error; `mean` in operations.hpp returns
0 whenever the shape has zero elements, and the vector `mean` in
core/utils.hpp returns 0 for the empty vector. -/
theorem mean_empty_behavior :
    (∀ a : NdArr ℚ, compute_size a.shape = 0 → ops_mean a = 0) ∧
    (∀ l : List ℚ, l.isEmpty = true → utils_mean l = 0) ∧
    (∀ A : CoreArr ℚ,
      reduction_mean A = .error "mean: cannot compute mean of empty ndarray" ↔
        A.data.length = 0) := by
  refine ⟨fun a h => ?_, fun l h => ?_, fun A => ?_⟩
  · simp [ops_mean, h]
  · simp [utils_mean, h]
  · by_cases h : A.data.length = 0 <;> simp [reduction_mean, h]

/-- Witness for C5 amended at concrete empty inputs. -/
theorem mean_empty_behavior_witness :
    ops_mean ⟨[2, 0], []⟩ = 0 ∧
      (reduction_mean ⟨[], [], []⟩ = .error "mean: cannot compute mean of empty ndarray" ↔
        ([] : List ℚ).length = 0) :=
  ⟨mean_empty_behavior.1 ⟨[2, 0], []⟩ (by decide),
    mean_empty_behavior.2.2 ⟨[], [], []⟩⟩

/-! ### Matrix multiplication (claim C6) -/

/-- The sum of a mapped `List.range` is the `Finset.range` sum. -/
theorem list_range_map_sum (f : ℕ → ℚ) (n : ℕ) :
    ((List.range n).map f).sum = ∑ k ∈ Finset.range n, f k := by
  induction n with
  | zero => simp
  | succ n ih => rw [List.range_succ, Finset.sum_range_succ]; simp [ih]

/-- Reading a mapped `List.range` at an in-range position. -/
theorem list_range_map_getD (f : ℕ → ℚ) {N q : ℕ} (h : q < N) :
    ((List.range N).map f).getD q 0 = f q := by
  rw [List.getD_eq_getElem _ _ (by simpa using h)]
  simp

/-- C6.  `matmul` on an `n×p` and a `p×m` array returns the `n×m` array
with `C(i,j) = Σ_k A(i,k) * B(k,j)`, and fails when the inner dimensions
differ; in particular the spec example
`[[1,2,3],[4,5,6]] × [[7,8],[9,10],[11,12]] = [[58,64],[139,154]]`. -/
theorem matmul_spec :
    (∀ (a b : NdArr ℚ) (n p m : ℕ), a.shape = [n, p] → b.shape = [p, m] →
      ∃ c, matmul a b = .ok c ∧ c.shape = [n, m] ∧ c.data.length = n * m ∧
        ∀ i j, i < n → j < m →
          nd_at c [i, j] = ∑ k ∈ Finset.range p, nd_at a [i, k] * nd_at b [k, j]) ∧
    (∀ (a b : NdArr ℚ) (n p q m : ℕ), a.shape = [n, p] → b.shape = [q, m] → p ≠ q →
      matmul a b = .error "Matrix dimensions incompatible for multiplication") ∧
    matmul (⟨[2, 3], [1, 2, 3, 4, 5, 6]⟩ : NdArr ℤ) ⟨[3, 2], [7, 8, 9, 10, 11, 12]⟩ =
      .ok ⟨[2, 2], [58, 64, 139, 154]⟩ := by
  refine ⟨?_, ?_, by rfl⟩
  · intro a b n p m ha hb
    have hd : (default : ℚ) = 0 := rfl
    have hm : matmul a b = .ok ⟨[n, m],
        (List.range (n * m)).map fun q =>
          ((List.range p).map fun k =>
            a.data.getD (q / m * p + k) 0 * b.data.getD (k * m + q % m) 0).sum⟩ := by
      simp [matmul, ha, hb]
    refine ⟨_, hm, rfl, by simp, ?_⟩
    intro i j hi hj
    have hmpos : 0 < m := Nat.lt_of_le_of_lt (Nat.zero_le _) hj
    have hq : i * m + j < n * m := by
      calc i * m + j < i * m + m := by omega
        _ = (i + 1) * m := by ring
        _ ≤ n * m := Nat.mul_le_mul_right _ (by omega)
    have hdiv : (i * m + j) / m = i := by
      rw [mul_comm, Nat.mul_add_div hmpos, Nat.div_eq_of_lt hj]; omega
    have hmod : (i * m + j) % m = j := by
      rw [mul_comm, Nat.mul_add_mod, Nat.mod_eq_of_lt hj]
    have hat : nd_at (⟨[n, m],
        (List.range (n * m)).map fun q =>
          ((List.range p).map fun k =>
            a.data.getD (q / m * p + k) 0 * b.data.getD (k * m + q % m) 0).sum⟩ : NdArr ℚ)
        [i, j] =
        ((List.range p).map fun k =>
          a.data.getD (i * p + k) 0 * b.data.getD (k * m + j) 0).sum := by
      show ((List.range (n * m)).map fun q =>
          ((List.range p).map fun k =>
            a.data.getD (q / m * p + k) 0 * b.data.getD (k * m + q % m) 0).sum).getD
          (flatten_index [i, j] (compute_strides [n, m])) default =
        ((List.range p).map fun k =>
          a.data.getD (i * p + k) 0 * b.data.getD (k * m + j) 0).sum
      have hflat : flatten_index [i, j] (compute_strides [n, m]) = i * m + j := by
        simp [flatten_index, compute_strides]
      rw [hflat]
      have := list_range_map_getD (fun q =>
        ((List.range p).map fun k =>
          a.data.getD (q / m * p + k) 0 * b.data.getD (k * m + q % m) 0).sum) hq
      rw [show (default : ℚ) = 0 from rfl, this]
      simp only [hdiv, hmod]
    rw [hat, list_range_map_sum]
    refine Finset.sum_congr rfl fun k _ => ?_
    have h1 : nd_at a [i, k] = a.data.getD (i * p + k) 0 := by
      simp [nd_at, ha, flatten_index, compute_strides, hd]
    have h2 : nd_at b [k, j] = b.data.getD (k * m + j) 0 := by
      simp [nd_at, hb, flatten_index, compute_strides, hd]
    rw [h1, h2]
  · intro a b n p q m ha hb hpq
    simp [matmul, ha, hb, hpq]

/-- Witness for C6 at the spec example, instantiated over `ℚ`. -/
theorem matmul_spec_witness :
    ∃ c, matmul (⟨[2, 3], [1, 2, 3, 4, 5, 6]⟩ : NdArr ℚ) ⟨[3, 2], [7, 8, 9, 10, 11, 12]⟩ =
        .ok c ∧
      c.shape = [2, 2] ∧ c.data.length = 2 * 2 ∧
      ∀ i j, i < 2 → j < 2 →
        nd_at c [i, j] = ∑ k ∈ Finset.range 3,
          nd_at (⟨[2, 3], [1, 2, 3, 4, 5, 6]⟩ : NdArr ℚ) [i, k] *
            nd_at (⟨[3, 2], [7, 8, 9, 10, 11, 12]⟩ : NdArr ℚ) [k, j] :=
  matmul_spec.1 ⟨[2, 3], [1, 2, 3, 4, 5, 6]⟩ ⟨[3, 2], [7, 8, 9, 10, 11, 12]⟩ 2 3 2 rfl rfl

/-! ### Elementwise division (claim C4) -/

/-- Bind on `Except` past a success. -/
theorem ebind_ok (v : α) (f : α → Except String β) : (Except.ok v >>= f) = f v := rfl

/-- Bind on `Except` past a failure. -/
theorem ebind_err (e : String) (f : α → Except String β) :
    (Except.error e >>= f) = .error e := rfl

/-- Unfolding of `bshapes_rev` on a compatible leading pair. -/
theorem bshapes_rev_cons (a b : ℕ) (as bs : List ℕ)
    (hcond : ¬ (a ≠ b ∧ a ≠ 1 ∧ b ≠ 1)) :
    bshapes_rev (a :: as) (b :: bs) =
      bshapes_rev as bs >>= fun r => .ok (max a b :: r) := by
  simp only [bshapes_rev]
  rw [if_neg hcond]

/-- A successfully broadcast shape is a fixed point on the left operand:
broadcasting the first shape against the result returns the result. -/
theorem bshapes_rev_absorb_left (x : List ℕ) : ∀ (y r : List ℕ),
    bshapes_rev x y = .ok r → bshapes_rev x r = .ok r := by
  induction x with
  | nil =>
    intro y r h
    rw [bshapes_rev_nil_left] at h
    obtain rfl : (y.map fun b => max 1 b) = r := by
      simpa using h
    rw [bshapes_rev_nil_left, List.map_map]
    congr 1
    apply List.map_congr_left
    intro b _
    simp only [Function.comp_apply]
    omega
  | cons a as ih =>
    intro y r h
    cases y with
    | nil =>
      rw [bshapes_rev_nil_right] at h
      obtain rfl : ((a :: as).map fun v => max v 1) = r := by
        simpa using h
      have htail := ih [] (as.map fun v => max v 1) (bshapes_rev_nil_right as)
      have hcond : ¬ (a ≠ max a 1 ∧ a ≠ 1 ∧ max a 1 ≠ 1) := by omega
      rw [List.map_cons, bshapes_rev_cons _ _ _ _ hcond, htail, ebind_ok]
      have hmx : max a (max a 1) = max a 1 := by omega
      rw [hmx]
    | cons b bs =>
      by_cases hcond : a ≠ b ∧ a ≠ 1 ∧ b ≠ 1
      · simp [bshapes_rev, hcond] at h
      · rw [bshapes_rev_cons _ _ _ _ hcond] at h
        rcases hrec : bshapes_rev as bs with e | rs
        · rw [hrec, ebind_err] at h
          exact absurd h (by simp)
        · rw [hrec, ebind_ok] at h
          obtain rfl : max a b :: rs = r := by simpa using h
          have htail := ih bs rs hrec
          have hcond2 : ¬ (a ≠ max a b ∧ a ≠ 1 ∧ max a b ≠ 1) := by omega
          rw [bshapes_rev_cons _ _ _ _ hcond2, htail, ebind_ok]
          have hmx : max a (max a b) = max a b := by omega
          rw [hmx]

/-- A successfully broadcast shape is a fixed point on the right operand. -/
theorem bshapes_rev_absorb_right (x : List ℕ) : ∀ (y r : List ℕ),
    bshapes_rev x y = .ok r → bshapes_rev y r = .ok r := by
  induction x with
  | nil =>
    intro y r h
    rw [bshapes_rev_nil_left] at h
    obtain rfl : (y.map fun b => max 1 b) = r := by
      simpa using h
    clear h
    induction y with
    | nil => rfl
    | cons b bs ihy =>
      have hcond : ¬ (b ≠ max 1 b ∧ b ≠ 1 ∧ max 1 b ≠ 1) := by omega
      rw [List.map_cons, bshapes_rev_cons _ _ _ _ hcond, ihy, ebind_ok]
      have hmx : max b (max 1 b) = max 1 b := by omega
      rw [hmx]
  | cons a as ih =>
    intro y r h
    cases y with
    | nil =>
      rw [bshapes_rev_nil_right] at h
      obtain rfl : ((a :: as).map fun v => max v 1) = r := by
        simpa using h
      rw [bshapes_rev_nil_left, List.map_map]
      congr 1
      apply List.map_congr_left
      intro v _
      simp only [Function.comp_apply]
      omega
    | cons b bs =>
      by_cases hcond : a ≠ b ∧ a ≠ 1 ∧ b ≠ 1
      · simp [bshapes_rev, hcond] at h
      · rw [bshapes_rev_cons _ _ _ _ hcond] at h
        rcases hrec : bshapes_rev as bs with e | rs
        · rw [hrec, ebind_err] at h
          exact absurd h (by simp)
        · rw [hrec, ebind_ok] at h
          obtain rfl : max a b :: rs = r := by simpa using h
          have htail := ih bs rs hrec
          have hcond2 : ¬ (b ≠ max a b ∧ b ≠ 1 ∧ max a b ≠ 1) := by omega
          rw [bshapes_rev_cons _ _ _ _ hcond2, htail, ebind_ok]
          have hmx : max b (max a b) = max a b := by omega
          rw [hmx]

/-- Absorption lifted to `broadcast_shapes`, left operand. -/
theorem broadcast_shapes_absorb_left {s1 s2 r : List ℕ}
    (h : broadcast_shapes s1 s2 = .ok r) : broadcast_shapes s1 r = .ok r := by
  unfold broadcast_shapes at h ⊢
  rcases hrec : bshapes_rev s1.reverse s2.reverse with e | rr
  · rw [hrec] at h; exact absurd h (by simp)
  · rw [hrec] at h
    obtain rfl : rr.reverse = r := by simpa using h
    rw [List.reverse_reverse,
      bshapes_rev_absorb_left s1.reverse s2.reverse rr (by simpa using hrec)]

/-- Absorption lifted to `broadcast_shapes`, right operand. -/
theorem broadcast_shapes_absorb_right {s1 s2 r : List ℕ}
    (h : broadcast_shapes s1 s2 = .ok r) : broadcast_shapes s2 r = .ok r := by
  unfold broadcast_shapes at h ⊢
  rcases hrec : bshapes_rev s1.reverse s2.reverse with e | rr
  · rw [hrec] at h; exact absurd h (by simp)
  · rw [hrec] at h
    obtain rfl : rr.reverse = r := by simpa using h
    rw [List.reverse_reverse,
      bshapes_rev_absorb_right s1.reverse s2.reverse rr (by simpa using hrec)]

/-- C4 counterexample.  Element-wise division with a zero element in the
divisor returns a result instead of failing: over the rational model of
`double`, `[4,1] / [2,0]` comes back `Except.ok` holding the raw
elementwise quotients `[4/2, 1/0]` — the C++ `double` instantiation
silently yields `inf` at the zero divisor; no `DomainError` check exists
anywhere on this path. -/
theorem divide_by_zero_silently_ok :
    divide (fun x y : ℚ => x / y) ⟨[2], [4, 1]⟩ ⟨[2], [2, 0]⟩ =
      .ok ⟨[2], [4 / 2, 1 / 0]⟩ := rfl

/-- C4 amended.  For every pair of broadcast-compatible arrays, `divide`
returns `Except.ok` with the elementwise quotients of the element type —
it performs no per-element divide-by-zero or domain check and never raises
a domain error, even when the divisor contains zeros (for IEEE element
types the quotient is silently `inf`/`NaN`). -/
theorem divide_no_domain_check (α : Type) [Inhabited α] (dv : α → α → α)
    (a b : NdArr α) (rs : List ℕ)
    (h : broadcast_shapes a.shape b.shape = .ok rs) :
    ∃ dta dtb, broadcast_to a rs = .ok ⟨rs, dta⟩ ∧ broadcast_to b rs = .ok ⟨rs, dtb⟩ ∧
      divide dv a b = .ok ⟨rs, List.zipWith dv dta dtb⟩ := by
  have ha := broadcast_shapes_absorb_left h
  have hb := broadcast_shapes_absorb_right h
  have h2a : broadcast_to a rs = .ok ⟨rs,
      bcast_fill a.data (List.replicate (rs.length - a.shape.length) 1 ++ a.shape)
        (compute_strides (List.replicate (rs.length - a.shape.length) 1 ++ a.shape)) rs
        (compute_size rs) (List.replicate rs.length 0)⟩ := by
    simp only [broadcast_to, ha, ebind_ok]
  have h2b : broadcast_to b rs = .ok ⟨rs,
      bcast_fill b.data (List.replicate (rs.length - b.shape.length) 1 ++ b.shape)
        (compute_strides (List.replicate (rs.length - b.shape.length) 1 ++ b.shape)) rs
        (compute_size rs) (List.replicate rs.length 0)⟩ := by
    simp only [broadcast_to, hb, ebind_ok]
  refine ⟨_, _, h2a, h2b, ?_⟩
  simp only [divide, h, ebind_ok, h2a, h2b]

/-- Witness for C4 amended: equal shapes `{2}` with a zero in the divisor
still produce `Except.ok`. -/
theorem divide_no_domain_check_witness :
    ∃ dta dtb,
      broadcast_to (⟨[2], [4, 1]⟩ : NdArr ℚ) [2] = .ok ⟨[2], dta⟩ ∧
      broadcast_to (⟨[2], [2, 0]⟩ : NdArr ℚ) [2] = .ok ⟨[2], dtb⟩ ∧
      divide (fun x y : ℚ => x / y) ⟨[2], [4, 1]⟩ ⟨[2], [2, 0]⟩ =
        .ok ⟨[2], List.zipWith (fun x y : ℚ => x / y) dta dtb⟩ :=
  divide_no_domain_check ℚ (fun x y : ℚ => x / y) ⟨[2], [4, 1]⟩ ⟨[2], [2, 0]⟩ [2] rfl

/-! ### `broadcast_to` mapping invariant (claim C1)

Two implementations exist.  `broadcast_to` of broadcasting.hpp satisfies
the invariant `result(i0,...,ik) = source(min(i0,s0-1),...)`: below it is
evaluated at the spec's size-1-axis case (`{1,3} → {4,3}`, every row is a
copy of the source row, i.e. coordinate `min(i,0) = 0` along axis 0) and
at the equal-shape case (identity).  `broadcast_to` of core/reshape.hpp
violates the invariant — and its own documented example `B(i,j) = A(0,j)`
for `{1,3} → {4,3}`: the strides-sharing view constructor it calls demands
that the *source* buffer already holds `Π target_shape` elements, so every
genuinely expanding call throws `"ndarray: data size does not match
shape"`; and in the equal-shape case its copy loop drops the innermost
coordinate from the source offset, producing `[[1,1],[3,3]]` from
`[[1,2],[3,4]]` (element `(0,1)` is 1, not the required
`A(min 0 1, min 1 1) = A(0,1) = 2`) while writing through the shared
buffer of the source. -/

/-- C1.  The broadcasting.hpp `broadcast_to` realises the min-mapping at
the spec's size-1-axis and equal-shape cases, while the core/reshape.hpp
`broadcast_to` throws on the same size-1-axis case and returns
`[[1,1],[3,3]]` for the equal-shape `[[1,2],[3,4]]`. -/
theorem broadcast_to_mapping :
    broadcast_to (⟨[1, 3], [1, 2, 3]⟩ : NdArr ℤ) [4, 3] =
        .ok ⟨[4, 3], [1, 2, 3, 1, 2, 3, 1, 2, 3, 1, 2, 3]⟩ ∧
      broadcast_to (⟨[2, 2], [5, 6, 7, 8]⟩ : NdArr ℤ) [2, 2] =
        .ok ⟨[2, 2], [5, 6, 7, 8]⟩ ∧
      reshape_broadcast_to (⟨[1, 3], [3, 1], [1, 2, 3]⟩ : CoreArr ℤ) [4, 3] =
        .error "ndarray: data size does not match shape" ∧
      reshape_broadcast_to (⟨[2, 2], [2, 1], [1, 2, 3, 4]⟩ : CoreArr ℤ) [2, 2] =
        .ok ⟨[2, 2], [2, 1], [1, 1, 3, 3]⟩ ∧
      core_at (⟨[2, 2], [2, 1], [1, 1, 3, 3]⟩ : CoreArr ℤ) [0, 1] = 1 ∧
      core_at (⟨[2, 2], [2, 1], [1, 2, 3, 4]⟩ : CoreArr ℤ) [0, 1] = 2 :=
  ⟨rfl, rfl, rfl, rfl, rfl, rfl⟩

/-! ### Determinant (claim C2) -/

/-- C2 counterexample.  A 2×2 matrix whose only pivots have magnitude
`2⁻⁶⁰`, far below the tolerance `10 · 2⁻⁵²`: the claim requires `det` to
return exactly 0, but the `n = 2` path of `det` is the direct cofactor
formula with no pivot-magnitude check, returning `2⁻¹²⁰ ≠ 0` (the Laplace
`determinant` of linear_algebra.hpp returns the same nonzero value and has
no check on any path). -/
theorem det_small_pivot_not_zero :
    det eps10 2 (fun i j => if i = j then 1 / 2 ^ 60 else 0) = 1 / 2 ^ 120 ∧
      determinant 2 (fun i j => if i = j then 1 / 2 ^ 60 else 0) = 1 / 2 ^ 120 ∧
      (1 / 2 ^ 120 : ℚ) ≠ 0 ∧ |(1 / 2 ^ 60 : ℚ)| < eps10 := by
  refine ⟨?_, ?_, by norm_num, ?_⟩
  · simp only [det]
    norm_num
  · simp only [determinant]
    norm_num
  · rw [abs_of_pos (by norm_num)]
    norm_num [eps10]

/-- The partial-pivoting search on a matrix that is (pointwise) the
identity stays at the diagonal: no off-diagonal magnitude beats `|1|`. -/
theorem pivot_search_id (n k : ℕ) (M : Matq) (hM : ∀ i j, M i j = idQ i j) :
    pivot_search n k M = k := by
  unfold pivot_search
  have h : ∀ l : List ℕ, (∀ i ∈ l, k + 1 ≤ i) →
      l.foldl (fun pm i => if |M i k| > pm.2 then (i, |M i k|) else pm)
        (k, |M k k|) = (k, |M k k|) := by
    intro l
    induction l with
    | nil => intro _; rfl
    | cons i is ih =>
      intro hmem
      have hik : i ≠ k := by
        have := hmem i (by simp)
        omega
      have hMik : M i k = 0 := by rw [hM i k]; simp [idQ, hik]
      have hMkk : M k k = 1 := by rw [hM k k]; simp [idQ]
      simp only [List.foldl_cons]
      rw [if_neg]
      · exact ih fun j hj => hmem j (by simp [hj])
      · rw [hMik, hMkk]
        simp
  rw [h _ fun i hi => (List.mem_range'_1.mp hi).1]

/-- Swapping a row with itself changes nothing. -/
theorem swap_rows_self (k : ℕ) (M : Matq) (i j : ℕ) :
    swap_rows k k M i j = M i j := by
  unfold swap_rows
  by_cases h : i = k
  · subst h; simp
  · simp [h]

/-- Elimination preserves a pointwise-identity matrix. -/
theorem elim_step_id (n k : ℕ) (M : Matq) (hM : ∀ i j, M i j = idQ i j)
    (i j : ℕ) : elim_step n k M i j = idQ i j := by
  unfold elim_step
  by_cases h : k < i ∧ i < n ∧ k < j ∧ j < n
  · have hik : M i k = 0 := by rw [hM i k]; simp [idQ]; omega
    simp [h, hik, hM i j]
  · simp [h, hM i j]

/-- The LU loop of `det` on a pointwise-identity matrix accumulates only
pivots 1, performs no swap and hits no small pivot. -/
theorem det_loop_id (n : ℕ) : ∀ (fuel k : ℕ) (M : Matq) (dv : ℚ) (sw : ℕ),
    (∀ i j, M i j = idQ i j) →
    det_loop eps10 n fuel k M dv sw = if sw % 2 = 0 then dv else -dv := by
  intro fuel
  induction fuel with
  | zero => intro k M dv sw _; rfl
  | succ f ih =>
    intro k M dv sw hM
    have heq : det_loop eps10 n (f + 1) k M dv sw =
        if |swap_rows k (pivot_search n k M) M k k| < eps10 then 0
        else det_loop eps10 n f (k + 1)
          (elim_step n k (swap_rows k (pivot_search n k M) M))
          (dv * swap_rows k (pivot_search n k M) M k k)
          (if pivot_search n k M ≠ k then sw + 1 else sw) := rfl
    rw [heq, pivot_search_id n k M hM]
    have hM1 : ∀ i j, swap_rows k k M i j = idQ i j := by
      intro i j
      rw [swap_rows_self, hM i j]
    have hkk : swap_rows k k M k k = 1 := by
      rw [hM1 k k]; simp [idQ]
    rw [hkk, if_neg (by norm_num [eps10]),
      ih (k + 1) _ _ _ (elim_step_id n k _ hM1), mul_one]
    simp

/-- The LU loop result is the recorded pivot product with the swap sign,
or the 0 sentinel when a small pivot was recorded. -/
theorem det_loop_lu (tol : ℚ) (n : ℕ) : ∀ (fuel k : ℕ) (M : Matq) (dv : ℚ) (sw : ℕ),
    det_loop tol n fuel k M dv sw =
      if (lu_pivots tol n fuel k M).2.2 then 0
      else (-1) ^ (sw + (lu_pivots tol n fuel k M).2.1) *
        (dv * (lu_pivots tol n fuel k M).1.prod) := by
  intro fuel
  induction fuel with
  | zero =>
    intro k M dv sw
    show (if sw % 2 = 0 then dv else -dv) = _
    rcases Nat.even_or_odd sw with he | ho
    · rw [if_pos (Nat.even_iff.mp he)]
      show _ = (-1) ^ (sw + 0) * (dv * List.prod [])
      rw [Nat.add_zero, he.neg_one_pow]
      simp
    · have ho1 := Nat.odd_iff.mp ho
      rw [if_neg (by omega)]
      show _ = (-1) ^ (sw + 0) * (dv * List.prod [])
      rw [Nat.add_zero, ho.neg_one_pow]
      simp
  | succ f ih =>
    intro k M dv sw
    have hdl : det_loop tol n (f + 1) k M dv sw =
        if |swap_rows k (pivot_search n k M) M k k| < tol then 0
        else det_loop tol n f (k + 1)
          (elim_step n k (swap_rows k (pivot_search n k M) M))
          (dv * swap_rows k (pivot_search n k M) M k k)
          (if pivot_search n k M ≠ k then sw + 1 else sw) := rfl
    have hlu : lu_pivots tol n (f + 1) k M =
        if |swap_rows k (pivot_search n k M) M k k| < tol then
          ([swap_rows k (pivot_search n k M) M k k],
            if pivot_search n k M ≠ k then 1 else 0, true)
        else
          (swap_rows k (pivot_search n k M) M k k ::
            (lu_pivots tol n f (k + 1)
              (elim_step n k (swap_rows k (pivot_search n k M) M))).1,
          (if pivot_search n k M ≠ k then 1 else 0) +
            (lu_pivots tol n f (k + 1)
              (elim_step n k (swap_rows k (pivot_search n k M) M))).2.1,
          (lu_pivots tol n f (k + 1)
            (elim_step n k (swap_rows k (pivot_search n k M) M))).2.2) := rfl
    rw [hdl, hlu]
    by_cases hs : |swap_rows k (pivot_search n k M) M k k| < tol
    · rw [if_pos hs, if_pos hs]
      simp
    · rw [if_neg hs, if_neg hs, ih]
      by_cases hb : (lu_pivots tol n f (k + 1)
          (elim_step n k (swap_rows k (pivot_search n k M) M))).2.2
      · simp only [hb, if_true]
      · simp only [hb, if_false, List.prod_cons]
        by_cases hpk : pivot_search n k M ≠ k
        · simp only [if_pos hpk]
          rw [show sw + 1 + (lu_pivots tol n f (k + 1)
              (elim_step n k (swap_rows k (pivot_search n k M) M))).2.1 =
            sw + (1 + (lu_pivots tol n f (k + 1)
              (elim_step n k (swap_rows k (pivot_search n k M) M))).2.1) by omega]
          ring_nf
        · simp only [if_neg hpk, Nat.zero_add]
          ring_nf

/-- C2 amended.  `det(I_n) = 1` for every `n` and
`det([[1,2],[3,4]]) = -2` (also for the Laplace `determinant`); for
`n ≥ 3` — and only there — `det` performs LU decomposition with partial
pivoting, returning the product of the encountered pivots times
`(-1)^swap_count`, and the exact 0 sentinel precisely when a pivot
magnitude below `10·ε` is encountered; the `n ≤ 2` paths are direct
cofactor formulas with no pivot-magnitude check. -/
theorem det_lu_description :
    (∀ n, det eps10 n idQ = 1) ∧
    det eps10 2 (fun i j => (([[1, 2], [3, 4]].getD i []).getD j 0 : ℚ)) = -2 ∧
    determinant 2 (fun i j => (([[1, 2], [3, 4]].getD i []).getD j 0 : ℚ)) = -2 ∧
    (∀ (n : ℕ) (A : Matq), 3 ≤ n →
      det eps10 n A =
        if (lu_run eps10 n A).2.2 then 0
        else (-1) ^ (lu_run eps10 n A).2.1 * (lu_run eps10 n A).1.prod) := by
  refine ⟨?_, ?_, ?_, ?_⟩
  · intro n
    by_cases h1 : n = 1
    · simp [det, h1, idQ]
    · by_cases h2 : n = 2
      · simp [det, h1, h2, idQ]
      · rw [show det eps10 n idQ = det_loop eps10 n n 0 idQ 1 0 by
          simp [det, h1, h2]]
        rw [det_loop_id n n 0 idQ 1 0 fun i j => rfl]
        simp
  · simp only [det]
    norm_num
  · simp only [determinant]
    norm_num
  · intro n A hn
    rw [show det eps10 n A = det_loop eps10 n n 0 A 1 0 by
      unfold det; rw [if_neg (by omega), if_neg (by omega)]]
    rw [det_loop_lu eps10 n n 0 A 1 0]
    unfold lu_run
    by_cases hb : (lu_pivots eps10 n n 0 A).2.2
    · rw [if_pos hb, if_pos hb]
    · rw [if_neg hb, if_neg hb, Nat.zero_add, one_mul]

/-- Witness for C2 amended at `n = 3` (discharging the `3 ≤ n`
hypothesis) together with the `n = 3` identity evaluation. -/
theorem det_lu_description_witness :
    det eps10 3 idQ = 1 ∧ (3 ≤ 3 ∧
      det eps10 3 idQ =
        if (lu_run eps10 3 idQ).2.2 then 0
        else (-1) ^ (lu_run eps10 3 idQ).2.1 * (lu_run eps10 3 idQ).1.prod) :=
  ⟨det_lu_description.1 3, by norm_num, det_lu_description.2.2.2 3 idQ (by norm_num)⟩

/-! ### Matrix inverse on singular input (claim C3) -/

/-- The Gauss-Jordan loop of `inv` fails exactly when the recorded pivot
sequence contains a magnitude below the tolerance. -/
theorem inv_loop_error_iff (tol : ℚ) (n : ℕ) : ∀ (fuel k : ℕ) (aug : Matq),
    ((∃ e, inv_loop tol n fuel k aug = .error e) ↔
      ∃ p ∈ (gj_pivots_loop tol n fuel k aug).1, |p| < tol) := by
  intro fuel
  induction fuel with
  | zero =>
    intro k aug
    constructor
    · rintro ⟨e, he⟩
      exact absurd he (by simp [inv_loop])
    · rintro ⟨p, hp, _⟩
      exact absurd hp (by simp [gj_pivots_loop])
  | succ f ih =>
    intro k aug
    have hinv : inv_loop tol n (f + 1) k aug =
        if |swap_rows k (pivot_search n k aug) aug k k| < tol then
          .error "inv: matrix is singular"
        else inv_loop tol n f (k + 1)
          (gj_elim n k (scale_row k (swap_rows k (pivot_search n k aug) aug))) := rfl
    have hgj : gj_pivots_loop tol n (f + 1) k aug =
        if |swap_rows k (pivot_search n k aug) aug k k| < tol then
          ([swap_rows k (pivot_search n k aug) aug k k], true)
        else
          (swap_rows k (pivot_search n k aug) aug k k ::
            (gj_pivots_loop tol n f (k + 1)
              (gj_elim n k (scale_row k (swap_rows k (pivot_search n k aug) aug)))).1,
          (gj_pivots_loop tol n f (k + 1)
            (gj_elim n k (scale_row k (swap_rows k (pivot_search n k aug) aug)))).2) := rfl
    rw [hinv, hgj]
    by_cases hs : |swap_rows k (pivot_search n k aug) aug k k| < tol
    · rw [if_pos hs, if_pos hs]
      exact iff_of_true ⟨_, rfl⟩ ⟨_, by simp, hs⟩
    · rw [if_neg hs, if_neg hs]
      constructor
      · intro he
        obtain ⟨p, hp, hps⟩ := (ih (k + 1) _).mp he
        exact ⟨p, List.mem_cons_of_mem _ hp, hps⟩
      · rintro ⟨p, hp, hps⟩
        rcases List.mem_cons.mp hp with rfl | hp2
        · exact absurd hps hs
        · exact (ih (k + 1) _).mpr ⟨p, hp2, hps⟩

/-- C3.  `inv` fails with the singular-matrix error precisely when some
pivot magnitude encountered during its Gauss-Jordan elimination with
partial pivoting falls below the tolerance, and in that situation it never
returns a result; concretely, the singular 1×1 zero matrix is rejected
with `"inv: matrix is singular"`. -/
theorem inv_singular_error :
    (∀ (tol : ℚ) (n : ℕ) (A : Matq),
      ((∃ e, inv tol n A = .error e) ↔ ∃ p ∈ gj_pivots tol n A, |p| < tol) ∧
      ((∃ p ∈ gj_pivots tol n A, |p| < tol) → ∀ B, inv tol n A ≠ .ok B)) ∧
    inv eps10 1 (fun _ _ => 0) = .error "inv: matrix is singular" := by
  constructor
  · intro tol n A
    have h := inv_loop_error_iff tol n n 0 (aug_init n A)
    have hfirst : (∃ e, inv tol n A = .error e) ↔
        ∃ p ∈ gj_pivots tol n A, |p| < tol := by
      unfold inv gj_pivots
      constructor
      · rintro ⟨e, he⟩
        apply h.mp
        cases hrec : inv_loop tol n n 0 (aug_init n A) with
        | error e2 => exact ⟨e2, rfl⟩
        | ok v =>
          rw [hrec] at he
          exact absurd he (by simp [Except.map])
      · intro hp
        obtain ⟨e, he⟩ := h.mpr hp
        exact ⟨e, by rw [he]; rfl⟩
    refine ⟨hfirst, fun hp B hok => ?_⟩
    obtain ⟨e, he⟩ := hfirst.mpr hp
    rw [hok] at he
    exact Except.noConfusion he
  · have hps : pivot_search 1 0 (aug_init 1 fun _ _ => 0) = 0 := rfl
    have h00 : swap_rows 0 (pivot_search 1 0 (aug_init 1 fun _ _ => 0))
        (aug_init 1 fun _ _ => 0) 0 0 = 0 := by
      rw [hps, swap_rows_self]
      rfl
    have hloop : inv_loop eps10 1 1 0 (aug_init 1 fun _ _ => 0) =
        if |swap_rows 0 (pivot_search 1 0 (aug_init 1 fun _ _ => 0))
            (aug_init 1 fun _ _ => 0) 0 0| < eps10 then
          .error "inv: matrix is singular"
        else inv_loop eps10 1 0 1
          (gj_elim 1 0 (scale_row 0 (swap_rows 0
            (pivot_search 1 0 (aug_init 1 fun _ _ => 0))
            (aug_init 1 fun _ _ => 0)))) := rfl
    unfold inv
    rw [hloop, h00, if_pos (by rw [abs_zero]; norm_num [eps10])]
    rfl

/-- Witness for C3 at the singular matrix `[[1,2],[2,4]]`: the
error-iff-small-pivot characterisation instantiated at a concrete input. -/
theorem inv_singular_error_witness :
    (∃ e, inv eps10 2 (fun i j => (([[1, 2], [2, 4]].getD i []).getD j 0 : ℚ)) = .error e) ↔
      ∃ p ∈ gj_pivots eps10 2 (fun i j => (([[1, 2], [2, 4]].getD i []).getD j 0 : ℚ)),
        |p| < eps10 :=
  (inv_singular_error.1 eps10 2 (fun i j => (([[1, 2], [2, 4]].getD i []).getD j 0 : ℚ))).1

end NumBits
